import Mathlib

/-!
Verification of the napari-tracks reader (src/napari_tracks/tracks.py).

The file shallowly embeds the three functions of the module — the track
extractor (get_tracks), the reader resolver (napari_get_reader) and the
format dispatcher (reader_function) — and proves the frozen claims about
them.

Modelling choices, recorded once here:
  - pandas.DataFrame becomes DFrame: an ordered list of column names and a
    list of rows, each row a list of rational cell values.  Cell values are
    modelled as exact rationals; the code only multiplies, subtracts and
    compares cell values, never divides, so every algebraic claim below is
    about these exact operations.
  - np.bincount(id_array) followed by track_count[id_array] assigns to each
    row the number of rows holding the same id value; this is modelled
    directly as a count of equal id cells (countTrack).  The code requires
    id values to be dense non-negative integers for np.bincount to accept
    them; theorems carry that requirement as a hypothesis where they talk
    about get_tracks output.
  - df.sort_values(by=[id_col, time_col]) sorts by a lexicographic key.
    With several sort keys pandas performs a stable lexicographic sort
    (np.lexsort); it is modelled as insertion sort with the non-strict
    lexicographic preorder, which computes exactly the stable sort.
  - track_data[:, -3:] *= scale multiplies the last three columns of the
    projected array elementwise by the three scale entries; scaleLast3
    models the slice arithmetic literally (including the case where fewer
    than three coordinate columns were requested, in which case the slice
    reaches into the time or id column).
  - The Imaris branch of reader_function manipulates tables whose cells can
    be missing after a left merge; those tables are modelled separately as
    OTable with optional cells, and pandas DataFrame.merge(how = left) is
    modelled as leftMerge.
-/

namespace NapariTracks

/-- Column-labelled table of rational cells, modelling the pandas DataFrame
passed to get_tracks: a list of column names and a list of rows. -/
structure DFrame where
  cols : List String
  rows : List (List ℚ)
deriving DecidableEq

/-- Cell access df[c] for one row: the entry of the row at the position of
column c in df.cols (0 when the column is absent; pandas would raise
instead, and every claim below only reads columns that are present). -/
def DFrame.cellQ (df : DFrame) (r : List ℚ) (c : String) : ℚ :=
  r.getD (List.indexOf c df.cols) 0

/-- Well-formedness: every row has exactly one cell per column. -/
def DFrame.WF (df : DFrame) : Prop :=
  ∀ r ∈ df.rows, r.length = df.cols.length

instance (df : DFrame) : Decidable df.WF :=
  inferInstanceAs (Decidable (∀ r ∈ df.rows, r.length = df.cols.length))

/-- Column assignment df[c] = vals: overwrite the column when it exists,
append a new column otherwise (pandas setitem semantics). -/
def DFrame.setCol (df : DFrame) (c : String) (vals : List ℚ) : DFrame :=
  if c ∈ df.cols then
    ⟨df.cols, (df.rows.zip vals).map (fun p => p.1.set (List.indexOf c df.cols) p.2)⟩
  else
    ⟨df.cols ++ [c], (df.rows.zip vals).map (fun p => p.1 ++ [p.2])⟩

/-- df.to_dict(list): map each column name to the list of its values. -/
def DFrame.toDict (df : DFrame) : List (String × List ℚ) :=
  df.cols.map (fun c => (c, df.rows.map (fun r => df.cellQ r c)))

/-- Non-strict lexicographic order on (id, time) keys: the order pandas
sort_values(by=[id_col, time_col]) sorts by. -/
def lexLe (p q : ℚ × ℚ) : Prop :=
  p.1 < q.1 ∨ (p.1 = q.1 ∧ p.2 ≤ q.2)

instance (p q : ℚ × ℚ) : Decidable (lexLe p q) :=
  inferInstanceAs (Decidable (_ ∨ _))

/-- Sort key of a row: the pair of its id cell and its time cell. -/
def rowKey (df : DFrame) (idCol timeCol : String) (r : List ℚ) : ℚ × ℚ :=
  (df.cellQ r idCol, df.cellQ r timeCol)

/-- Row comparison used by the sort step of get_tracks. -/
def sortRel (df : DFrame) (idCol timeCol : String) (a b : List ℚ) : Prop :=
  lexLe (rowKey df idCol timeCol a) (rowKey df idCol timeCol b)

instance (df : DFrame) (idCol timeCol : String) :
    DecidableRel (sortRel df idCol timeCol) :=
  fun a b => inferInstanceAs (Decidable (lexLe _ _))

theorem lexLe_refl (p : ℚ × ℚ) : lexLe p p := Or.inr ⟨rfl, le_refl _⟩

theorem lexLe_total (p q : ℚ × ℚ) : lexLe p q ∨ lexLe q p := by
  rcases lt_trichotomy p.1 q.1 with h | h | h
  · exact Or.inl (Or.inl h)
  · rcases le_total p.2 q.2 with h2 | h2
    · exact Or.inl (Or.inr ⟨h, h2⟩)
    · exact Or.inr (Or.inr ⟨h.symm, h2⟩)
  · exact Or.inr (Or.inl h)

theorem lexLe_trans {p q s : ℚ × ℚ} (h1 : lexLe p q) (h2 : lexLe q s) : lexLe p s := by
  rcases h1 with h1 | ⟨h1, h1'⟩ <;> rcases h2 with h2 | ⟨h2, h2'⟩
  · exact Or.inl (h1.trans h2)
  · exact Or.inl (h2 ▸ h1)
  · exact Or.inl (h1 ▸ h2)
  · exact Or.inr ⟨h1.trans h2, h1'.trans h2'⟩

instance (df : DFrame) (idCol timeCol : String) :
    IsTotal (List ℚ) (sortRel df idCol timeCol) :=
  ⟨fun a b => lexLe_total _ _⟩

instance (df : DFrame) (idCol timeCol : String) :
    IsTrans (List ℚ) (sortRel df idCol timeCol) :=
  ⟨fun _ _ _ => lexLe_trans⟩

/-! Embedding of get_tracks (tracks.py lines 50-66), split by source line so
that each stage can be named in theorems. -/

/-- Trajectory length of a row (tracks.py lines 51-52): np.bincount of the
id column indexed back by the id column gives, for each row, the number of
rows of df carrying the same id value.  np.bincount only accepts dense
non-negative integer ids; theorems assume that of the id column. -/
def countTrack (df : DFrame) (idCol : String) (r : List ℚ) : ℕ :=
  df.rows.countP (fun s => decide (df.cellQ s idCol = df.cellQ r idCol))

/-- Line 53: df[track length] = track_count[id_array]. -/
def addTrackLength (df : DFrame) (idCol : String) : DFrame :=
  df.setCol "track length" (df.rows.map (fun r => (countTrack df idCol r : ℚ)))

/-- Line 54: df_filtered = df.loc[df[track length] >= min_frames, :]. -/
def filterTracks (df1 : DFrame) (minFrames : ℚ) : DFrame :=
  { df1 with rows := df1.rows.filter (fun r => decide (minFrames ≤ df1.cellQ r "track length")) }

/-- Line 55: df_filtered.sort_values(by=[id_col, time_col]) — the stable
lexicographic sort on the (id, time) key, realized by insertion sort. -/
def sortTracks (df1 : DFrame) (idCol timeCol : String) : DFrame :=
  { df1 with rows := df1.rows.insertionSort (sortRel df1 idCol timeCol) }

/-- Line 56: data_cols = [id_col, time_col] + list(coord_cols). -/
def dataColsOf (idCol timeCol : String) (coordCols : List String) : List String :=
  [idCol, timeCol] ++ coordCols

/-- Line 58: track_data[:, -3:] *= scale.  The python slice -3: covers the
last min(3, width) columns; broadcasting against the three scale entries
multiplies them elementwise. -/
def scaleLast3 (row scale : List ℚ) : List ℚ :=
  row.take (row.length - 3) ++ List.zipWith (· * ·) (row.drop (row.length - 3)) scale

/-- Lines 57-58: df_filtered[data_cols].to_numpy() with the scale applied
to the trailing three columns. -/
def trackArray (dfS : DFrame) (idCol timeCol : String) (coordCols : List String)
    (scale : List ℚ) : List (List ℚ) :=
  dfS.rows.map (fun r => scaleLast3 ((dataColsOf idCol timeCol coordCols).map (dfS.cellQ r)) scale)

/-- get_tracks (tracks.py lines 9-66) with w_prop = True, as in every call
of the repository: returns the track array and the filtered, sorted table
whose to_dict(list) is the properties mapping. -/
def get_tracks (df : DFrame) (minFrames : ℚ) (idCol timeCol : String)
    (coordCols : List String) (scale : List ℚ) : List (List ℚ) × DFrame :=
  let df1 := addTrackLength df idCol
  let dfF := filterTracks df1 minFrames
  let dfS := sortTracks dfF idCol timeCol
  (trackArray dfS idCol timeCol coordCols scale, dfS)

/-- Inputs on which the numeric steps of get_tracks are defined: rows match
the header, the id column holds non-negative integers (np.bincount), the
table does not already carry the derived column, at least one coordinate
column is requested and the scale has the three entries the -3: slice is
broadcast against. -/
def ValidInput (df : DFrame) (idCol : String) (coordCols : List String)
    (scale : List ℚ) : Prop :=
  df.WF ∧ (∀ r ∈ df.rows, (df.cellQ r idCol).den = 1 ∧ 0 ≤ df.cellQ r idCol) ∧
    "track length" ∉ df.cols ∧ 1 ≤ coordCols.length ∧ scale.length = 3

instance (df : DFrame) (idCol : String) (coordCols : List String) (scale : List ℚ) :
    Decidable (ValidInput df idCol coordCols scale) :=
  inferInstanceAs (Decidable (_ ∧ _ ∧ _ ∧ _ ∧ _))

/-! Embedding of napari_get_reader (tracks.py lines 69-97). -/

/-- Argument accepted by the resolver: a single path string or a list of
path strings (the two shapes napari hands to a reader hook). -/
inductive PathInput where
  | single (p : String)
  | multi (ps : List String)
deriving DecidableEq

/-- Filesystem view the resolver consults: whether a string names a
directory and which entry names a directory listing yields.  The resolver
is specified for every such view. -/
structure FileSys where
  isDir : String → Bool
  listDir : String → List String

/-- napari_get_reader: true models returning reader_function, false models
returning None.  Lines 86-87 accept a list when every element ends in
.csv; lines 90-91 accept a single path ending in .csv; lines 94-95 accept
a directory one of whose entries ends in .csv; line 97 declines. -/
def napari_get_reader (fs : FileSys) : PathInput → Bool
  | PathInput.multi ps => ps.all (fun p => p.endsWith ".csv")
  | PathInput.single p =>
    if p.endsWith ".csv" then true
    else if fs.isDir p && (fs.listDir p).any (fun q => q.endsWith ".csv") then true
    else false

/-! Embedding of the per-file branch of reader_function
(tracks.py lines 158-180). -/

/-- Layer record appended to layer_list: the tuple
(tracks, add_kwargs, layer_type) with the add_kwargs fields spelled out. -/
structure Layer where
  data : List (List ℚ)
  properties : List (String × List ℚ)
  colormap : String
  colorBy : String
  layerType : String
deriving DecidableEq

/-- Branch body for one loaded table (lines 160-176): a table with a
parent column is treated as a btrack table (id parent, time t); otherwise
a table with a particle column is treated as a trackpy table (all
get_tracks defaults); otherwise neither branch assigns the layer
variables, modelled by none. -/
def processTable (df : DFrame) : Option Layer :=
  if "parent" ∈ df.cols then
    let r := get_tracks df 0 "parent" "t" ["z", "y", "x"] [1, 1, 1]
    some ⟨r.1, r.2.toDict, "viridis", "parent", "tracks"⟩
  else if "particle" ∈ df.cols then
    let r := get_tracks df 0 "particle" "frame" ["z", "y", "x"] [1, 1, 1]
    some ⟨r.1, r.2.toDict, "viridis", "particle", "tracks"⟩
  else none

/-- Loop of lines 158-179 over the loaded tables.  The python variables
tracks and add_kwargs survive between iterations, so a table matching
neither schema appends the layer of the previous iteration; when no
previous iteration assigned them, line 177 raises NameError, modelled as
Except.error. -/
def readerLoop : List DFrame → Option Layer → Except Unit (List Layer)
  | [], _ => Except.ok []
  | t :: ts, prev =>
    match (processTable t).orElse (fun _ => prev) with
    | none => Except.error ()
    | some l => (readerLoop ts (some l)).map (fun rest => l :: rest)

/-- reader_function restricted to the branch that did not detect the
multi-file Imaris layout, applied to the already-loaded tables of the
resolved paths in order. -/
def reader_function_tables (tables : List DFrame) : Except Unit (List Layer) :=
  readerLoop tables none

/-! Embedding of the multi-file Imaris branch of reader_function
(tracks.py lines 126-147).  After the left merges cells can be missing
(NaN), so these tables carry optional cells. -/

/-- Table with optional cells, modelling the DataFrames of the Imaris
branch where a failed left-merge match fills NaN. -/
structure OTable where
  cols : List String
  rows : List (List (Option ℚ))
deriving DecidableEq

/-- Cell access by column name on an optional-cell table. -/
def OTable.cellO (t : OTable) (r : List (Option ℚ)) (c : String) : Option ℚ :=
  r.getD (List.indexOf c t.cols) none

/-- Line 131: the irrelevant Imaris columns dropped from every table. -/
def colsToRemove : List String :=
  ["Unit", "Category", "Collection", "Unnamed: 9", "Unnamed: 6", "Unnamed: 4"]

/-- DataFrame.drop(columns=bad, errors=ignore): remove the listed columns
and, positionally, their cells. -/
def OTable.dropCols (t : OTable) (bad : List String) : OTable :=
  let keep := (List.range t.cols.length).filter (fun i => !bad.contains (t.cols.getD i ""))
  ⟨keep.map (fun i => t.cols.getD i ""),
   t.rows.map (fun r => keep.map (fun i => r.getD i none))⟩

/-- DataFrame.rename(columns={old: new}). -/
def OTable.renameCol (t : OTable) (old new : String) : OTable :=
  { t with cols := t.cols.map (fun c => if c = old then new else c) }

/-- DataFrame.merge(right, on=keys, how=left): for each left row, one
output row per right row agreeing on every key column, or a single row
padded with missing cells when no right row matches.  The key columns are
kept once; the remaining right columns are appended.  (The Imaris tables
share no non-key column, so pandas suffixing does not arise.) -/
def OTable.leftMerge (L R : OTable) (keys : List String) : OTable :=
  let newCols := R.cols.filter (fun c => !keys.contains c)
  ⟨L.cols ++ newCols,
   (L.rows.map (fun lr =>
     let hits := R.rows.filter (fun rr => keys.all (fun k => R.cellO rr k == L.cellO lr k))
     if hits.isEmpty then [lr ++ newCols.map (fun _ => (none : Option ℚ))]
     else hits.map (fun rr => lr ++ newCols.map (fun c => R.cellO rr c)))).flatten⟩

/-- Line 141: table[Time] -= 1 (missing cells stay missing). -/
def OTable.decTime (t : OTable) : OTable :=
  { t with rows := t.rows.map (fun r =>
      r.set (List.indexOf "Time" t.cols)
        ((r.getD (List.indexOf "Time" t.cols) none).map (fun x => x - 1))) }

/-- Loop body of lines 133-140 for one auxiliary table: a table with a
Time column is merged on TrackID and Time; otherwise a table whose cleaned
columns lack TrackID has its ID column renamed to TrackID and is merged on
TrackID; otherwise the table is skipped. -/
def imarisStep (acc tab : OTable) : OTable :=
  let tabClean := tab.dropCols colsToRemove
  if "Time" ∈ tab.cols then acc.leftMerge tabClean ["TrackID", "Time"]
  else if "TrackID" ∉ tabClean.cols then
    acc.leftMerge (tabClean.renameCol "ID" "TrackID") ["TrackID"]
  else acc

/-- Line 132: the primary position table, cleaned and with ID renamed to
SpotID.  posIdx is the index of the first path ending in Position.csv. -/
def imarisBase (tables : List OTable) (posIdx : ℕ) : OTable :=
  ((tables.getD posIdx ⟨[], []⟩).dropCols colsToRemove).renameCol "ID" "SpotID"

/-- Lines 132-141: assemble the merged Imaris table — clean and rename the
primary table, fold the loop body over the auxiliary tables in order, and
decrement the Time column. -/
def imarisAssemble (tables : List OTable) (posIdx : ℕ) : OTable :=
  (((tables.eraseIdx posIdx).foldl imarisStep (imarisBase tables posIdx))).decTime

/-- Modelled from the spec sentence of claim C3 for comparison with the
code: the claimed merge step, which left-merges EVERY auxiliary table —
on (TrackID, Time) when it has a Time column and on TrackID alone
otherwise. -/
def claimedMergeStep (acc tab : OTable) : OTable :=
  let tabClean := tab.dropCols colsToRemove
  if "Time" ∈ tab.cols then acc.leftMerge tabClean ["TrackID", "Time"]
  else acc.leftMerge (tabClean.renameCol "ID" "TrackID") ["TrackID"]

/-- Amended merge plan: the auxiliary tables that actually take part in a
merge are those with a Time column or without a TrackID column after
cleaning; the rest are skipped. -/
def mergeable (tab : OTable) : Bool :=
  ("Time" ∈ tab.cols) || !("TrackID" ∈ (tab.dropCols colsToRemove).cols)

/-! Helper lemmas about the get_tracks pipeline. -/

theorem getD_append_self (r : List ℚ) (v : ℚ) : (r ++ [v]).getD r.length 0 = v := by
  rw [List.getD_eq_getElem?_getD, List.getElem?_append_right (le_refl _)]
  simp

theorem indexOf_trackLength {cols : List String} (h : "track length" ∉ cols) :
    List.indexOf "track length" (cols ++ ["track length"]) = cols.length := by
  rw [List.indexOf_append_of_not_mem h]
  simp

theorem zip_self_map {α β : Type} (l : List α) (f : α → β) :
    l.zip (l.map f) = l.map (fun a => (a, f a)) := by
  have h := List.zip_map' id f l
  simpa using h

theorem addTrackLength_eq (df : DFrame) (idCol : String) (h : "track length" ∉ df.cols) :
    addTrackLength df idCol =
      ⟨df.cols ++ ["track length"],
       df.rows.map (fun r => r ++ [(countTrack df idCol r : ℚ)])⟩ := by
  unfold addTrackLength DFrame.setCol
  rw [if_neg h, zip_self_map, List.map_map]
  rfl

theorem addTrackLength_rows (df : DFrame) (idCol : String) (h : "track length" ∉ df.cols) :
    (addTrackLength df idCol).rows =
      df.rows.map (fun r => r ++ [(countTrack df idCol r : ℚ)]) := by
  rw [addTrackLength_eq df idCol h]

theorem addTrackLength_cols (df : DFrame) (idCol : String) (h : "track length" ∉ df.cols) :
    (addTrackLength df idCol).cols = df.cols ++ ["track length"] := by
  rw [addTrackLength_eq df idCol h]

theorem cellQ_trackLength (df : DFrame) (idCol : String) (h : "track length" ∉ df.cols)
    {r : List ℚ} (hr : r.length = df.cols.length) (v : ℚ) :
    (addTrackLength df idCol).cellQ (r ++ [v]) "track length" = v := by
  unfold DFrame.cellQ
  rw [addTrackLength_cols df idCol h, indexOf_trackLength h, ← hr, getD_append_self]

theorem filterTracks_addTrackLength_rows (df : DFrame) (idCol : String) (minFrames : ℚ)
    (hw : df.WF) (h : "track length" ∉ df.cols) :
    (filterTracks (addTrackLength df idCol) minFrames).rows =
      (df.rows.filter (fun r => decide (minFrames ≤ (countTrack df idCol r : ℚ)))).map
        (fun r => r ++ [(countTrack df idCol r : ℚ)]) := by
  unfold filterTracks
  rw [addTrackLength_rows df idCol h, List.filter_map]
  dsimp only
  congr 1
  apply List.filter_congr
  intro r hr
  simp only [Function.comp]
  rw [cellQ_trackLength df idCol h (hw r hr)]

theorem sortTracks_rows_perm (d : DFrame) (idCol timeCol : String) :
    ((sortTracks d idCol timeCol).rows).Perm d.rows :=
  List.perm_insertionSort _ _

theorem get_tracks_snd (df : DFrame) (minFrames : ℚ) (idCol timeCol : String)
    (coordCols : List String) (scale : List ℚ) :
    (get_tracks df minFrames idCol timeCol coordCols scale).2 =
      sortTracks (filterTracks (addTrackLength df idCol) minFrames) idCol timeCol := rfl

theorem get_tracks_rows_perm (df : DFrame) (minFrames : ℚ) (idCol timeCol : String)
    (coordCols : List String) (scale : List ℚ)
    (hw : df.WF) (h : "track length" ∉ df.cols) :
    ((get_tracks df minFrames idCol timeCol coordCols scale).2.rows).Perm
      ((df.rows.filter (fun r => decide (minFrames ≤ (countTrack df idCol r : ℚ)))).map
        (fun r => r ++ [(countTrack df idCol r : ℚ)])) := by
  rw [get_tracks_snd]
  exact (sortTracks_rows_perm _ _ _).trans
    (by rw [filterTracks_addTrackLength_rows df idCol minFrames hw h])

theorem map_take_of_filter (df : DFrame) (idCol : String) (q : List ℚ → Bool) (hw : df.WF) :
    ((df.rows.filter q).map (fun r => r ++ [(countTrack df idCol r : ℚ)])).map
        (fun r => r.take df.cols.length) =
      df.rows.filter q := by
  rw [List.map_map]
  have : ∀ r ∈ df.rows.filter q,
      ((fun r => r.take df.cols.length) ∘ fun r => r ++ [(countTrack df idCol r : ℚ)]) r = id r := by
    intro r hr
    have hlen : r.length = df.cols.length := hw r (List.mem_of_mem_filter hr)
    simp only [Function.comp, id]
    rw [← hlen, List.take_left]
  rw [List.map_congr_left this, List.map_id]

theorem get_tracks_rows_take_perm (df : DFrame) (minFrames : ℚ) (idCol timeCol : String)
    (coordCols : List String) (scale : List ℚ)
    (hw : df.WF) (h : "track length" ∉ df.cols) :
    ((get_tracks df minFrames idCol timeCol coordCols scale).2.rows.map
        (fun r => r.take df.cols.length)).Perm
      (df.rows.filter (fun r => decide (minFrames ≤ (countTrack df idCol r : ℚ)))) := by
  have hp := (get_tracks_rows_perm df minFrames idCol timeCol coordCols scale hw h).map
    (fun r => r.take df.cols.length)
  rwa [map_take_of_filter df idCol _ hw] at hp

/-- Stability of insertion sort on a tie class: filtering by a predicate
whose elements are pairwise related commutes with sorting. -/
theorem insertionSort_filter_eq {α : Type} (r : α → α → Prop) [DecidableRel r]
    (l : List α) (p : α → Bool)
    (hkey : ∀ a b, p a = true → p b = true → r a b) :
    (l.insertionSort r).filter p = l.filter p := by
  have hsub : List.Sublist (l.filter p) (l.insertionSort r) :=
    List.sublist_insertionSort
      (List.pairwise_of_forall_mem_list
        (fun a ha b hb => hkey a b (List.of_mem_filter ha) (List.of_mem_filter hb)))
      (List.filter_sublist l)
  have hself : (l.filter p).filter p = l.filter p :=
    List.filter_eq_self.mpr (fun a ha => List.of_mem_filter ha)
  have hsub2 : List.Sublist (l.filter p) ((l.insertionSort r).filter p) := by
    have h2 := List.Sublist.filter p hsub
    rwa [hself] at h2
  have hperm : ((l.insertionSort r).filter p).Perm (l.filter p) :=
    (List.perm_insertionSort r l).filter p
  exact (hsub2.eq_of_length hperm.length_eq.symm).symm

theorem scaleLast3_cons2 (a b : ℚ) (l s : List ℚ) (hl : l.length = 3) :
    scaleLast3 (a :: b :: l) s = a :: b :: List.zipWith (· * ·) l s := by
  rcases List.length_eq_three.mp hl with ⟨x, y, z, rfl⟩
  rfl

theorem zipWith_ones : ∀ l : List ℚ, l.length ≤ 3 → List.zipWith (· * ·) l [1, 1, 1] = l
  | [], _ => rfl
  | [a], _ => by simp
  | [a, b], _ => by simp
  | [a, b, c], _ => by simp
  | a :: b :: c :: d :: t, h => by simp at h

theorem scaleLast3_ones (row : List ℚ) : scaleLast3 row [1, 1, 1] = row := by
  unfold scaleLast3
  rw [zipWith_ones _ (by rw [List.length_drop]; omega)]
  exact List.take_append_drop _ _

/-- Example table of the spec (section 8): three observations, object 1
seen in two frames and object 2 in one. -/
def wdf : DFrame :=
  ⟨["particle", "frame", "z", "y", "x"],
   [[1, 0, 0, 1, 1], [1, 1, 0, 2, 2], [2, 0, 0, 5, 5]]⟩

/-- Claim C1: for every input table, the rows of the extractor's output
array are sorted with object id as primary key ascending and time as
secondary key ascending, and rows with equal (id, time) keys keep the
relative order they had before sorting (the sort is stable: the filtered
table lists input rows in input order, and filtering the sorted rows by
any key equals filtering the pre-sort filtered rows by that key). -/
theorem claim_C1 (df : DFrame) (minFrames : ℚ) (idCol timeCol : String)
    (coordCols : List String) (scale : List ℚ)
    (hv : ValidInput df idCol coordCols scale) (h3 : coordCols.length = 3) :
    List.Pairwise (fun a b : List ℚ => lexLe (a.getD 0 0, a.getD 1 0) (b.getD 0 0, b.getD 1 0))
      ((get_tracks df minFrames idCol timeCol coordCols scale).1) ∧
    ∀ k : ℚ × ℚ,
      ((get_tracks df minFrames idCol timeCol coordCols scale).2.rows.filter
          (fun r => decide (rowKey (addTrackLength df idCol) idCol timeCol r = k))) =
        ((filterTracks (addTrackLength df idCol) minFrames).rows.filter
          (fun r => decide (rowKey (addTrackLength df idCol) idCol timeCol r = k))) := by
  have hsorted : List.Pairwise
      (sortRel (filterTracks (addTrackLength df idCol) minFrames) idCol timeCol)
      ((get_tracks df minFrames idCol timeCol coordCols scale).2.rows) := by
    rw [get_tracks_snd]
    exact List.sorted_insertionSort _ _
  constructor
  · have harr : ∀ c : List ℚ,
        scaleLast3 ((dataColsOf idCol timeCol coordCols).map
            ((sortTracks (filterTracks (addTrackLength df idCol) minFrames) idCol timeCol).cellQ c))
          scale =
          (sortTracks (filterTracks (addTrackLength df idCol) minFrames) idCol timeCol).cellQ c idCol ::
          (sortTracks (filterTracks (addTrackLength df idCol) minFrames) idCol timeCol).cellQ c timeCol ::
          List.zipWith (· * ·)
            (coordCols.map
              ((sortTracks (filterTracks (addTrackLength df idCol) minFrames) idCol timeCol).cellQ c))
            scale := by
      intro c
      exact scaleLast3_cons2 _ _ _ _ (by simpa using h3)
    show List.Pairwise _ (((get_tracks df minFrames idCol timeCol coordCols scale).2.rows).map
      (fun r => scaleLast3 ((dataColsOf idCol timeCol coordCols).map
        ((sortTracks (filterTracks (addTrackLength df idCol) minFrames) idCol timeCol).cellQ r)) scale))
    refine List.Pairwise.map _ (fun a b hab => ?_) hsorted
    rw [harr a, harr b]
    simp only [List.getD_cons_zero, List.getD_cons_succ]
    exact hab
  · intro k
    rw [get_tracks_snd]
    unfold sortTracks
    dsimp only
    refine insertionSort_filter_eq _ _ _ (fun a b ha hb => ?_)
    have h1 : rowKey (addTrackLength df idCol) idCol timeCol a = k := of_decide_eq_true ha
    have h2 : rowKey (addTrackLength df idCol) idCol timeCol b = k := of_decide_eq_true hb
    show lexLe (rowKey (addTrackLength df idCol) idCol timeCol a)
      (rowKey (addTrackLength df idCol) idCol timeCol b)
    rw [h1, h2]
    exact lexLe_refl k

theorem claim_C1_witness :
    (ValidInput wdf "particle" ["z", "y", "x"] [1, 1, 1] ∧
      (["z", "y", "x"] : List String).length = 3) ∧
    (List.Pairwise (fun a b : List ℚ => lexLe (a.getD 0 0, a.getD 1 0) (b.getD 0 0, b.getD 1 0))
      ((get_tracks wdf 2 "particle" "frame" ["z", "y", "x"] [1, 1, 1]).1) ∧
    ∀ k : ℚ × ℚ,
      ((get_tracks wdf 2 "particle" "frame" ["z", "y", "x"] [1, 1, 1]).2.rows.filter
          (fun r => decide (rowKey (addTrackLength wdf "particle") "particle" "frame" r = k))) =
        ((filterTracks (addTrackLength wdf "particle") 2).rows.filter
          (fun r => decide (rowKey (addTrackLength wdf "particle") "particle" "frame" r = k)))) :=
  ⟨⟨by decide, by decide⟩,
   claim_C1 wdf 2 "particle" "frame" ["z", "y", "x"] [1, 1, 1] (by decide) (by decide)⟩

/-- Claim C2: the extractor's properties table holds exactly the input rows
whose object id value occurs at least min_frames times in the input (each
such row once, seen by dropping the appended track length cell), and its
row count is the number of such input rows. -/
theorem claim_C2 (df : DFrame) (minFrames : ℚ) (idCol timeCol : String)
    (coordCols : List String) (scale : List ℚ)
    (hv : ValidInput df idCol coordCols scale) :
    ((get_tracks df minFrames idCol timeCol coordCols scale).2.rows.map
        (fun r => r.take df.cols.length)).Perm
      (df.rows.filter (fun r => decide (minFrames ≤ (countTrack df idCol r : ℚ)))) ∧
    (get_tracks df minFrames idCol timeCol coordCols scale).2.rows.length =
      df.rows.countP (fun r => decide (minFrames ≤ (countTrack df idCol r : ℚ))) := by
  obtain ⟨hw, _, hnl, _, _⟩ := hv
  constructor
  · exact get_tracks_rows_take_perm df minFrames idCol timeCol coordCols scale hw hnl
  · have hp := get_tracks_rows_perm df minFrames idCol timeCol coordCols scale hw hnl
    rw [hp.length_eq, List.length_map, List.countP_eq_length_filter]

theorem claim_C2_witness :
    ValidInput wdf "particle" ["z", "y", "x"] [1, 1, 1] ∧
    (((get_tracks wdf 2 "particle" "frame" ["z", "y", "x"] [1, 1, 1]).2.rows.map
        (fun r => r.take wdf.cols.length)).Perm
      (wdf.rows.filter (fun r => decide ((2:ℚ) ≤ (countTrack wdf "particle" r : ℚ)))) ∧
    (get_tracks wdf 2 "particle" "frame" ["z", "y", "x"] [1, 1, 1]).2.rows.length =
      wdf.rows.countP (fun r => decide ((2:ℚ) ≤ (countTrack wdf "particle" r : ℚ)))) :=
  ⟨by decide, claim_C2 wdf 2 "particle" "frame" ["z", "y", "x"] [1, 1, 1] (by decide)⟩

/-- Claim C8: with min_frames = 0 the filter keeps everything — the
properties rows (with the appended track length cell dropped) are a
permutation of the input rows, one output row per input row. -/
theorem claim_C8 (df : DFrame) (idCol timeCol : String)
    (coordCols : List String) (scale : List ℚ)
    (hv : ValidInput df idCol coordCols scale) :
    ((get_tracks df 0 idCol timeCol coordCols scale).2.rows.map
        (fun r => r.take df.cols.length)).Perm df.rows ∧
    (get_tracks df 0 idCol timeCol coordCols scale).2.rows.length = df.rows.length := by
  obtain ⟨hw, _, hnl, _, _⟩ := hv
  have hq : df.rows.filter (fun r => decide ((0:ℚ) ≤ (countTrack df idCol r : ℚ))) = df.rows :=
    List.filter_eq_self.mpr (fun a _ => decide_eq_true (Nat.cast_nonneg _))
  constructor
  · have hp := get_tracks_rows_take_perm df 0 idCol timeCol coordCols scale hw hnl
    rwa [hq] at hp
  · have hp := get_tracks_rows_perm df 0 idCol timeCol coordCols scale hw hnl
    rw [hp.length_eq, List.length_map, hq]

theorem claim_C8_witness :
    ValidInput wdf "particle" ["z", "y", "x"] [1, 1, 1] ∧
    (((get_tracks wdf 0 "particle" "frame" ["z", "y", "x"] [1, 1, 1]).2.rows.map
        (fun r => r.take wdf.cols.length)).Perm wdf.rows ∧
    (get_tracks wdf 0 "particle" "frame" ["z", "y", "x"] [1, 1, 1]).2.rows.length =
      wdf.rows.length) :=
  ⟨by decide, claim_C8 wdf "particle" "frame" ["z", "y", "x"] [1, 1, 1] (by decide)⟩

/-- Claim C7: with scale (1, 1, 1) the output array is exactly the
unscaled projection of the filtered, sorted table onto the data columns —
scaling by the identity is the identity. -/
theorem claim_C7 (df : DFrame) (minFrames : ℚ) (idCol timeCol : String)
    (coordCols : List String)
    (hv : ValidInput df idCol coordCols [1, 1, 1]) :
    (get_tracks df minFrames idCol timeCol coordCols [1, 1, 1]).1 =
      (sortTracks (filterTracks (addTrackLength df idCol) minFrames) idCol timeCol).rows.map
        (fun r => (dataColsOf idCol timeCol coordCols).map
          ((sortTracks (filterTracks (addTrackLength df idCol) minFrames) idCol timeCol).cellQ r)) := by
  show trackArray _ _ _ _ _ = _
  unfold trackArray
  simp only [scaleLast3_ones]

theorem claim_C7_witness :
    ValidInput wdf "particle" ["z", "y", "x"] [1, 1, 1] ∧
    (get_tracks wdf 2 "particle" "frame" ["z", "y", "x"] [1, 1, 1]).1 =
      (sortTracks (filterTracks (addTrackLength wdf "particle") 2) "particle" "frame").rows.map
        (fun r => (dataColsOf "particle" "frame" ["z", "y", "x"]).map
          ((sortTracks (filterTracks (addTrackLength wdf "particle") 2) "particle" "frame").cellQ r)) :=
  ⟨by decide, claim_C7 wdf 2 "particle" "frame" ["z", "y", "x"] (by decide)⟩

/-- Claim C9: the extractor extends its input table with the derived track
length column holding each row's per-object occurrence count (modelled
functionally by addTrackLength, the state of the caller's table after the
in-place assignment of line 53), so the returned properties mapping always
has a track length key alongside every original column. -/
theorem claim_C9 (df : DFrame) (minFrames : ℚ) (idCol timeCol : String)
    (coordCols : List String) (scale : List ℚ) :
    ((get_tracks df minFrames idCol timeCol coordCols scale).2.toDict.map Prod.fst =
        if "track length" ∈ df.cols then df.cols else df.cols ++ ["track length"]) ∧
    "track length" ∈ (get_tracks df minFrames idCol timeCol coordCols scale).2.toDict.map Prod.fst ∧
    ("track length" ∉ df.cols →
      (addTrackLength df idCol).rows =
        df.rows.map (fun r => r ++ [(countTrack df idCol r : ℚ)])) := by
  have hcols : (get_tracks df minFrames idCol timeCol coordCols scale).2.cols =
      (addTrackLength df idCol).cols := rfl
  have hkeys : (get_tracks df minFrames idCol timeCol coordCols scale).2.toDict.map Prod.fst =
      (addTrackLength df idCol).cols := by
    unfold DFrame.toDict
    rw [List.map_map, hcols]
    show List.map id (addTrackLength df idCol).cols = (addTrackLength df idCol).cols
    exact List.map_id _
  have hsplit : (addTrackLength df idCol).cols =
      if "track length" ∈ df.cols then df.cols else df.cols ++ ["track length"] := by
    unfold addTrackLength DFrame.setCol
    split <;> rfl
  refine ⟨by rw [hkeys, hsplit], ?_, fun h => addTrackLength_rows df idCol h⟩
  rw [hkeys, hsplit]
  by_cases h : "track length" ∈ df.cols
  · rwa [if_pos h]
  · rw [if_neg h]
    exact List.mem_append_right _ (List.mem_singleton.mpr rfl)

theorem claim_C9_witness :
    ("track length" ∉ wdf.cols) ∧
    (((get_tracks wdf 2 "particle" "frame" ["z", "y", "x"] [1, 1, 1]).2.toDict.map Prod.fst =
        if "track length" ∈ wdf.cols then wdf.cols else wdf.cols ++ ["track length"]) ∧
    "track length" ∈
      (get_tracks wdf 2 "particle" "frame" ["z", "y", "x"] [1, 1, 1]).2.toDict.map Prod.fst ∧
    ("track length" ∉ wdf.cols →
      (addTrackLength wdf "particle").rows =
        wdf.rows.map (fun r => r ++ [(countTrack wdf "particle" r : ℚ)]))) :=
  ⟨by decide, claim_C9 wdf 2 "particle" "frame" ["z", "y", "x"] [1, 1, 1]⟩

/-- Two-dimensional table showing the -3: slice reaching the time column:
one observation of object 1 at time 3 with planar coordinates (10, 20). -/
def cexDf : DFrame := ⟨["particle", "frame", "x", "y"], [[1, 3, 10, 20]]⟩

/-- Counterexample to claim C6 as stated: with the two coordinate columns
x, y and scale (2, 2, 2), the output array row is [1, 6, 20, 40] while the
filtered, sorted table holds time value 3 — the time column was multiplied
by the scale, so it is not only the coordinate columns that are scaled. -/
theorem claim_C6_counterexample :
    (get_tracks cexDf 0 "particle" "frame" ["x", "y"] [2, 2, 2]).1 = [[1, 6, 20, 40]] ∧
    (sortTracks (filterTracks (addTrackLength cexDf "particle") 0) "particle" "frame").rows =
      [[1, 3, 10, 20, 1]] ∧
    ((6 : ℚ) ≠ 3) := by
  have h2 : (sortTracks (filterTracks (addTrackLength cexDf "particle") 0) "particle" "frame").rows =
      [[1, 3, 10, 20, 1]] := by decide
  refine ⟨?_, h2, by norm_num⟩
  have hproj : (dataColsOf "particle" "frame" ["x", "y"]).map
      ((sortTracks (filterTracks (addTrackLength cexDf "particle") 0) "particle" "frame").cellQ
        [1, 3, 10, 20, 1]) = [1, 3, 10, 20] := by decide
  show trackArray _ _ _ _ _ = _
  unfold trackArray
  rw [h2, List.map_singleton]
  rw [hproj]
  show [(1 : ℚ) :: (3 * 2 : ℚ) :: (10 * 2 : ℚ) :: (20 * 2 : ℚ) :: ([] : List ℚ)] =
    [[1, 6, 20, 40]]
  norm_num

/-- Claim C6 amended: when exactly three coordinate columns are requested
(as in every call of the repository), the output array rows are the
unscaled id and time cells followed by the coordinate cells multiplied
elementwise by the scale. -/
theorem claim_C6_amended (df : DFrame) (minFrames : ℚ) (idCol timeCol : String)
    (coordCols : List String) (scale : List ℚ)
    (hv : ValidInput df idCol coordCols scale) (h3 : coordCols.length = 3) :
    (get_tracks df minFrames idCol timeCol coordCols scale).1 =
      (sortTracks (filterTracks (addTrackLength df idCol) minFrames) idCol timeCol).rows.map
        (fun r =>
          (sortTracks (filterTracks (addTrackLength df idCol) minFrames) idCol timeCol).cellQ r idCol ::
          (sortTracks (filterTracks (addTrackLength df idCol) minFrames) idCol timeCol).cellQ r timeCol ::
          List.zipWith (· * ·)
            (coordCols.map
              ((sortTracks (filterTracks (addTrackLength df idCol) minFrames) idCol timeCol).cellQ r))
            scale) := by
  show trackArray _ _ _ _ _ = _
  unfold trackArray
  refine List.map_congr_left (fun r _ => ?_)
  exact scaleLast3_cons2 _ _ _ _ (by simpa using h3)

theorem claim_C6_amended_witness :
    (ValidInput wdf "particle" ["z", "y", "x"] [1, 1, 1] ∧
      (["z", "y", "x"] : List String).length = 3) ∧
    (get_tracks wdf 2 "particle" "frame" ["z", "y", "x"] [1, 1, 1]).1 =
      (sortTracks (filterTracks (addTrackLength wdf "particle") 2) "particle" "frame").rows.map
        (fun r =>
          (sortTracks (filterTracks (addTrackLength wdf "particle") 2) "particle" "frame").cellQ r "particle" ::
          (sortTracks (filterTracks (addTrackLength wdf "particle") 2) "particle" "frame").cellQ r "frame" ::
          List.zipWith (· * ·)
            ((["z", "y", "x"] : List String).map
              ((sortTracks (filterTracks (addTrackLength wdf "particle") 2) "particle" "frame").cellQ r))
            [1, 1, 1]) :=
  ⟨⟨by decide, by decide⟩,
   claim_C6_amended wdf 2 "particle" "frame" ["z", "y", "x"] [1, 1, 1] (by decide) (by decide)⟩

/-- Table carrying both a parent and a particle column. -/
def wpdf : DFrame :=
  ⟨["parent", "particle", "t", "z", "y", "x"], [[0, 1, 0, 0, 1, 1]]⟩

/-- Claim C10: a table whose columns contain both parent and particle takes
the hierarchical (btrack) branch — the extractor runs with id column
parent and time column t, and the layer is colored by parent, never by
particle. -/
theorem claim_C10 (df : DFrame) (hp : "parent" ∈ df.cols) (hq : "particle" ∈ df.cols) :
    processTable df =
      some ⟨(get_tracks df 0 "parent" "t" ["z", "y", "x"] [1, 1, 1]).1,
        (get_tracks df 0 "parent" "t" ["z", "y", "x"] [1, 1, 1]).2.toDict,
        "viridis", "parent", "tracks"⟩ ∧
    (processTable df).map Layer.colorBy = some "parent" ∧
    (processTable df).map Layer.colorBy ≠ some "particle" := by
  have h1 : processTable df =
      some ⟨(get_tracks df 0 "parent" "t" ["z", "y", "x"] [1, 1, 1]).1,
        (get_tracks df 0 "parent" "t" ["z", "y", "x"] [1, 1, 1]).2.toDict,
        "viridis", "parent", "tracks"⟩ := by
    unfold processTable
    rw [if_pos hp]
  refine ⟨h1, by rw [h1]; rfl, ?_⟩
  rw [h1]
  intro hcon
  simp only [Option.map_some', Option.some.injEq] at hcon
  exact absurd hcon (by decide)

theorem claim_C10_witness :
    ("parent" ∈ wpdf.cols ∧ "particle" ∈ wpdf.cols) ∧
    (processTable wpdf =
      some ⟨(get_tracks wpdf 0 "parent" "t" ["z", "y", "x"] [1, 1, 1]).1,
        (get_tracks wpdf 0 "parent" "t" ["z", "y", "x"] [1, 1, 1]).2.toDict,
        "viridis", "parent", "tracks"⟩ ∧
    (processTable wpdf).map Layer.colorBy = some "parent" ∧
    (processTable wpdf).map Layer.colorBy ≠ some "particle") :=
  ⟨⟨by decide, by decide⟩, claim_C10 wpdf (by decide) (by decide)⟩

/-! Claim C4: the fate of the per-file loop when a table matches neither
schema. -/

theorem processTable_eq_none_iff (df : DFrame) :
    processTable df = none ↔ ("parent" ∉ df.cols ∧ "particle" ∉ df.cols) := by
  unfold processTable
  by_cases h1 : "parent" ∈ df.cols
  · rw [if_pos h1]
    simp [h1]
  · rw [if_neg h1]
    by_cases h2 : "particle" ∈ df.cols
    · rw [if_pos h2]
      simp [h1, h2]
    · rw [if_neg h2]
      simp [h1, h2]

theorem readerLoop_some_ne_error (ts : List DFrame) (l : Layer) :
    readerLoop ts (some l) ≠ Except.error () := by
  induction ts generalizing l with
  | nil => simp [readerLoop]
  | cons t ts ih =>
    unfold readerLoop
    cases hpt : processTable t with
    | none =>
      show (match (Option.orElse none fun _ => some l) with
        | none => Except.error ()
        | some x => (readerLoop ts (some x)).map (fun rest => x :: rest)) ≠ Except.error ()
      simp only [Option.orElse]
      cases hres : readerLoop ts (some l) with
      | ok v => simp [Except.map, hres]
      | error e => exact absurd hres (ih l)
    | some l' =>
      show (match (Option.orElse (some l') fun _ => some l) with
        | none => Except.error ()
        | some x => (readerLoop ts (some x)).map (fun rest => x :: rest)) ≠ Except.error ()
      simp only [Option.orElse]
      cases hres : readerLoop ts (some l') with
      | ok v => simp [Except.map, hres]
      | error e => exact absurd hres (ih l')

/-- Claim C4 amended: in the non-Imaris branch, the invocation raises
(NameError on the unbound layer variables) exactly when the FIRST loaded
table lacks both parent and particle; a later table lacking both reuses
the previous iteration's layer and the call returns normally. -/
theorem claim_C4_amended (tables : List DFrame) :
    reader_function_tables tables = Except.error () ↔
      ∃ t ts, tables = t :: ts ∧ "parent" ∉ t.cols ∧ "particle" ∉ t.cols := by
  unfold reader_function_tables
  cases tables with
  | nil =>
    simp [readerLoop]
  | cons t ts =>
    constructor
    · intro h
      refine ⟨t, ts, rfl, ?_⟩
      by_contra hcon
      have hne : processTable t ≠ none := fun hn => hcon ((processTable_eq_none_iff t).mp hn)
      rcases Option.ne_none_iff_exists'.mp hne with ⟨l, hl⟩
      unfold readerLoop at h
      rw [hl] at h
      simp only [Option.orElse] at h
      cases hres : readerLoop ts (some l) with
      | ok v => rw [hres] at h; simp [Except.map] at h
      | error e => exact absurd hres (readerLoop_some_ne_error ts l)
    · rintro ⟨t', ts', heq, h1, h2⟩
      injection heq with heq1 heq2
      subst heq1
      have hn : processTable t = none := (processTable_eq_none_iff t).mpr ⟨h1, h2⟩
      unfold readerLoop
      rw [hn]
      rfl

/-- First table of the C4 counterexample: a trackpy-style table. -/
def cexT1 : DFrame := ⟨["particle", "frame", "z", "y", "x"], [[1, 0, 0, 0, 0]]⟩

/-- Second table of the C4 counterexample: neither parent nor particle. -/
def cexT2 : DFrame := ⟨["foo"], [[5]]⟩

/-- Counterexample to claim C4 as stated: the second loaded table contains
neither parent nor particle, yet the invocation returns a layer list
normally (the loop silently re-appends the previous layer) instead of
raising. -/
theorem claim_C4_counterexample :
    ("parent" ∉ cexT2.cols ∧ "particle" ∉ cexT2.cols) ∧
    (reader_function_tables [cexT1, cexT2]).toOption.isSome = true := by
  exact ⟨⟨by decide, by decide⟩, by decide⟩

/-! Claim C3: which auxiliary tables the Imaris branch actually merges. -/

theorem imaris_foldl_filter (l : List OTable) (acc : OTable) :
    l.foldl imarisStep acc = (l.filter mergeable).foldl claimedMergeStep acc := by
  induction l generalizing acc with
  | nil => rfl
  | cons t ts ih =>
    rw [List.foldl_cons, List.filter_cons]
    by_cases h1 : "Time" ∈ t.cols
    · have hm : mergeable t = true := by simp [mergeable, h1]
      rw [hm, if_pos rfl, List.foldl_cons, ih]
      congr 1
      unfold imarisStep claimedMergeStep
      rw [if_pos h1, if_pos h1]
    · by_cases h2 : "TrackID" ∈ (t.dropCols colsToRemove).cols
      · have hm : mergeable t = false := by simp [mergeable, h1, h2]
        have hstep : imarisStep acc t = acc := by
          unfold imarisStep
          rw [if_neg h1, if_neg (not_not_intro h2)]
        rw [hm, hstep, ih]
        simp
      · have hm : mergeable t = true := by simp [mergeable, h1, h2]
        rw [hm, if_pos rfl, List.foldl_cons, ih]
        congr 1
        unfold imarisStep claimedMergeStep
        rw [if_neg h1, if_neg h1, if_pos h2]

/-- Claim C3 amended: the Imaris branch left-merges onto the primary table
exactly the auxiliary tables that have a Time column (on TrackID and Time)
or that lack a TrackID column after cleaning (on TrackID alone, with their
ID column renamed to TrackID); an auxiliary table with a TrackID column
but no Time column is skipped and leaves the result unchanged. -/
theorem claim_C3_amended (tables : List OTable) (posIdx : ℕ) :
    imarisAssemble tables posIdx =
      OTable.decTime
        (((tables.eraseIdx posIdx).filter mergeable).foldl claimedMergeStep
          (imarisBase tables posIdx)) := by
  unfold imarisAssemble
  rw [imaris_foldl_filter]

/-- Primary position table of the C3 counterexample. -/
def cexPos : OTable :=
  ⟨["Position X", "Time", "TrackID", "ID"], [[some 1, some 5, some 7, some 9]]⟩

/-- Auxiliary table of the C3 counterexample: no Time column, but it does
have a TrackID column, plus a payload column Foo. -/
def cexAux : OTable := ⟨["Foo", "TrackID"], [[some 42, some 7]]⟩

/-- Counterexample to claim C3 as stated: the auxiliary table without a
Time column is NOT merged on TrackID — the assembled table lacks its Foo
column — whereas the merge the claim requires would have added Foo. -/
theorem claim_C3_counterexample :
    ("Time" ∉ cexAux.cols) ∧
    ("Foo" ∈ cexAux.cols) ∧
    ("Foo" ∉ (imarisAssemble [cexPos, cexAux] 0).cols) ∧
    ("Foo" ∈ ((imarisBase [cexPos, cexAux] 0).leftMerge (cexAux.dropCols colsToRemove)
        ["TrackID"]).cols) := by
  refine ⟨by decide, by decide, by decide, by decide⟩

/-- Claim C5: the resolver returns the handler exactly for a single path
ending in .csv, a list of paths all ending in .csv, or a directory with at
least one .csv entry, and it is a total function (it declines everything
else rather than raising). -/
theorem claim_C5 (fs : FileSys) (inp : PathInput) :
    napari_get_reader fs inp = true ↔
      ((∃ p, inp = PathInput.single p ∧ p.endsWith ".csv" = true) ∨
       (∃ ps, inp = PathInput.multi ps ∧ ∀ p ∈ ps, p.endsWith ".csv" = true) ∨
       (∃ p, inp = PathInput.single p ∧ fs.isDir p = true ∧
         ∃ q ∈ fs.listDir p, q.endsWith ".csv" = true)) := by
  cases inp with
  | multi ps =>
    simp only [napari_get_reader]
    rw [List.all_eq_true]
    constructor
    · intro h
      exact Or.inr (Or.inl ⟨ps, rfl, h⟩)
    · rintro (⟨p, hcon, _⟩ | ⟨ps', heq, h⟩ | ⟨p, hcon, _⟩)
      · exact PathInput.noConfusion hcon
      · injection heq with heq1
        subst heq1
        exact h
      · exact PathInput.noConfusion hcon
  | single p =>
    simp only [napari_get_reader]
    split_ifs with h1 h2
    · constructor
      · intro _
        exact Or.inl ⟨p, rfl, h1⟩
      · intro _
        rfl
    · rw [Bool.and_eq_true, List.any_eq_true] at h2
      constructor
      · intro _
        exact Or.inr (Or.inr ⟨p, rfl, h2.1, h2.2⟩)
      · intro _
        rfl
    · constructor
      · intro hcon
        exact absurd hcon (by simp)
      · rintro (⟨q, heq, hq⟩ | ⟨ps, hcon, _⟩ | ⟨q, heq, hd, hq⟩)
        · injection heq with heq1
          subst heq1
          exact absurd hq h1
        · exact hcon.elim
        · injection heq with heq1
          subst heq1
          exact absurd (by rw [Bool.and_eq_true, List.any_eq_true]; exact ⟨hd, hq⟩) h2

end NapariTracks
